import Mathlib

/-!
Shallow embedding of `nicolive-dl` (src/nicolive_dl/nicolive_dl.py and
src/nicolive_dl/__main__.py) for checking the specification's claims.

The repository's core is `NicoLiveDL`: `availability_check`,
`get_tiralWatch_info` (sic, the source's spelling), `get_info` and
`_download`.  Network I/O, HTML scraping, the interactive prompt, path
formatting and the websocket layer (`nicolive_ws.py`, which is not part of
the sources given) are external collaborators; they are modelled as an
oracle record `World` (playing the role of `self.ses` plus the outside
world), and every observable side effect is recorded in a trace of `Ev`
events so that ordering and "never attempted" claims can be stated.
-/

/-- Token `https://live.nicovideo.jp/watch/` from nicolive_dl.py line 17. -/
def LIVE_URL_PREFIX : String := "https://live.nicovideo.jp/watch/"

/-- One element of `events['data']` from the trial-watch endpoint, e.g.
`{'elapsedMillisecond': 6108, 'type': 'trialWatchState', 'commentMode':
'transparent', 'enabled': False}` (nicolive_dl.py lines 116-118). -/
structure TrialWatchEvent where
  elapsedMillisecond : Nat
  type : String
  commentMode : String
  enabled : Bool
  deriving Repr, DecidableEq

/-- The `program` object of the decoded embedded data. -/
structure ProgramData where
  nicoliveProgramId : String
  title : String
  deriving Repr, DecidableEq

/-- The `userProgramWatch` object of the decoded embedded data. -/
structure UserProgramWatch where
  canWatch : Bool
  rejectedReasons : List String
  deriving Repr, DecidableEq

/-- The `user` object of the decoded embedded data. -/
structure UserData where
  isTrialWatchTarget : Bool
  deriving Repr, DecidableEq

/-- The `site.relive` object of the decoded embedded data. -/
structure ReliveData where
  webSocketUrl : String
  deriving Repr, DecidableEq

/-- The `site` object of the decoded embedded data. -/
structure SiteData where
  relive : ReliveData
  deriving Repr, DecidableEq

/-- The decoded `data-props` JSON document, restricted to the fields the
core reads (nicolive_dl.py lines 86-107). -/
structure DecodedData where
  program : ProgramData
  userProgramWatch : UserProgramWatch
  user : UserData
  site : SiteData
  deriving Repr, DecidableEq

/-- The `#embedded-data` tag of the fetched page, holding the raw
percent-encoded `data-props` attribute (nicolive_dl.py lines 82-85). -/
structure EmbeddedTag where
  dataProps : String
  deriving Repr, DecidableEq

/-- A fetched broadcast page: either it contains the `#embedded-data` tag
or it does not (`soup.select_one` returning something that is not a `Tag`). -/
structure Page where
  embedded : Option EmbeddedTag

/-- Reason payload carried by `LiveUnavailableException`: either the
platform's `rejectedReasons` list (canWatch false branch, line 98) or the
literal `payment needed` (trial-watch branch, line 105). -/
inductive UnavailableReason where
  | rejectedReasons (reasons : List String)
  | paymentNeeded
  deriving Repr, DecidableEq

/-- Exceptions the embedded core can raise.  `SelectException` and
`LiveUnavailableException` come from the repository's `exceptions` module
(imported at line 14; its file is not among the sources, but the
constructor sites in nicolive_dl.py fix their roles).  `JSONDecodeError`
models `json.loads` failing on a malformed payload, `SessionClosed` the
websocket waiters failing (spec section 4.3), `SinkLaunchError` an
exception from launching/awaiting the ffmpeg subprocess, and `EOFError`
the interactive `input()` hitting end of input. -/
inductive Err where
  | SelectException (msg : String)
  | JSONDecodeError
  | LiveUnavailableException (lvid : String) (reason : UnavailableReason)
  | SessionClosed
  | SinkLaunchError
  | EOFError
  deriving Repr, DecidableEq

/-- Mode in which a capture component opens its destination file. -/
inductive FileMode where
  | append
  | truncate
  deriving Repr, DecidableEq

/-- Observable side effects of one run, recorded in program order. -/
inductive Ev where
  | pageFetch (lvid : String)
  | trialFetch (lvid : String)
  | warn (lvid : String)
  | overwritePrompt (path : String)
  | wsConnect
  | roomResolved (room : String)
  | commentStart (room : String) (dest : String) (mode : FileMode)
  | streamResolved (uri : String)
  | sinkLaunch (uri : String) (dest : String)
  | sinkExited (code : Int)
  | sessionClose
  deriving Repr, DecidableEq

/-- Result record `NicoLiveInfo = namedtuple(..., "lvid title web_socket_url")`
(nicolive_dl.py line 19). -/
structure NicoLiveInfo where
  lvid : String
  title : String
  web_socket_url : String
  deriving Repr, DecidableEq

/-- How `_download` ends when no exception escapes: `aborted` is the early
`return` after the operator answers `n` (line 61), `completed` is falling
off the end of the function. -/
inductive Outcome where
  | aborted
  | completed
  deriving Repr, DecidableEq

/-- Oracle for everything outside the core control logic: the HTTP session
(`self.ses`), JSON decoding, `sanitize`, `str.format`, `Path` queries, the
interactive prompt, and the behaviour of the websocket layer and of the
ffmpeg subprocess.

`roomEvent`/`streamUri` model `wait_for_room`/`wait_for_stream` from the
absent `nicolive_ws.py`.  Modelled from the spec: `awaitRoom` /
`awaitStreamAddress` suspend until their event is observed and fail with
`SessionClosed` if the channel closes first (spec section 4.3), so `none`
means the channel closed before producing the event.  `sinkRun = some c`
means the ffmpeg process launches and terminates with exit code `c`;
`none` means launching/awaiting it raises. -/
structure World where
  page : String → Page
  decode : String → Option DecodedData
  trialEvents : String → List TrialWatchEvent
  sanitize : String → String
  fmt : String → String → String → String
  stemJsonl : String → String
  pathExists : String → Bool
  answers : List String
  roomEvent : Option String
  streamUri : Option String
  sinkRun : Option Int

/-- Aggregation of `get_tiralWatch_info` (nicolive_dl.py lines 119-126)
applied to the event list returned by the trial-watch endpoint: filter to
`type == 'trialWatchState'`, then `all(enabled)` gives `'all'`,
`not any(enabled)` gives `'no'`, otherwise `'partial'`.  The HTTP GET that
produces the list is performed by the caller through the `World` oracle. -/
def get_tiralWatch_info (events : List TrialWatchEvent) : String :=
  let trialWatchStates := events.filter (fun e => e.type == "trialWatchState")
  if trialWatchStates.all (fun x => x.enabled) then "all"
  else if !(trialWatchStates.any (fun x => x.enabled)) then "no"
  else "partial"

/-- `NicoLiveDL.availability_check` (nicolive_dl.py lines 92-107).
Returns the control-flow outcome together with the trace of side effects:
fetching the trial-watch schedule and printing the red warning. -/
def availability_check (w : World) (decoded_data : DecodedData) :
    Except Err Unit × List Ev :=
  let lvid := decoded_data.program.nicoliveProgramId
  if decoded_data.userProgramWatch.canWatch = false then
    (.error (.LiveUnavailableException lvid
        (.rejectedReasons decoded_data.userProgramWatch.rejectedReasons)), [])
  else if decoded_data.user.isTrialWatchTarget = true then
    let tiralWatchInfo := get_tiralWatch_info (w.trialEvents lvid)
    if tiralWatchInfo = "no" then
      (.error (.LiveUnavailableException lvid .paymentNeeded), [.trialFetch lvid])
    else if tiralWatchInfo = "partial" then
      (.ok (), [.trialFetch lvid, .warn lvid])
    else
      (.ok (), [.trialFetch lvid])
  else
    (.ok (), [])

/-- `NicoLiveDL.get_info` (nicolive_dl.py lines 78-90): fetch the page,
require the `#embedded-data` tag (`SelectException` otherwise), decode its
`data-props` payload (`json.loads(unquote(...))`, which raises on a
malformed payload), run `availability_check`, and only then extract
`site.relive.webSocketUrl` and `program.title`. -/
def get_info (w : World) (lvid : String) : Except Err NicoLiveInfo × List Ev :=
  let evs := [Ev.pageFetch lvid]
  match (w.page lvid).embedded with
  | none => (.error (.SelectException "Not Found #embedded-data"), evs)
  | some embedded_tag =>
    match w.decode embedded_tag.dataProps with
    | none => (.error .JSONDecodeError, evs)
    | some decoded_data =>
      match availability_check w decoded_data with
      | (.error e, evs2) => (.error e, evs ++ evs2)
      | (.ok _, evs2) =>
        (.ok ⟨lvid, decoded_data.program.title,
              decoded_data.site.relive.webSocketUrl⟩, evs ++ evs2)

/-- Lowercasing of `ans.lower()`, embedded character-wise over the
string's data. -/
def str_lower (s : String) : String := ⟨s.data.map Char.toLower⟩

/-- The `while True` overwrite prompt (nicolive_dl.py lines 56-61): consume
answers until one lowercases to `y` (proceed) or `n` (return); `none`
models `input()` raising `EOFError` when the answers run out. -/
def confirm_overwrite : List String → Option Bool
  | [] => none
  | ans :: rest =>
    if str_lower ans = "y" then some true
    else if str_lower ans = "n" then some false
    else confirm_overwrite rest

/-- Final stage of `_download` (lines 73-76): launch ffmpeg with
`["-y", "-i", stream_uri, "-c", "copy", output_path]`, wait for it via
`proc.communicate()` (which does not inspect the exit status), then
`await nlws.close()`.  There is no try/finally around these lines. -/
def sink_phase (w : World) (stream_uri output_path : String) :
    Except Err Outcome × List Ev :=
  match w.sinkRun with
  | none => (.error .SinkLaunchError, [.sinkLaunch stream_uri output_path])
  | some code =>
    (.ok .completed,
     [.sinkLaunch stream_uri output_path, .sinkExited code, .sessionClose])

/-- Line 71: `stream_uri = await nlws.wait_for_stream()` and what follows. -/
def stream_phase (w : World) (output_path : String) :
    Except Err Outcome × List Ev :=
  match w.streamUri with
  | none => (.error .SessionClosed, [])
  | some stream_uri =>
    let r := sink_phase w stream_uri output_path
    (r.fst, .streamResolved stream_uri :: r.snd)

/-- Lines 65-69: when `save_comments`, compute the sibling `.jsonl` path,
`await nlws.wait_for_room()`, then start `NicoLiveCommentWS`.  Modelled
from the spec: `NicoLiveCommentWS` (absent `nicolive_ws.py`) persists
comment records to its destination append-only (spec section 4.4), hence
`FileMode.append` in the `commentStart` event. -/
def comment_phase (w : World) (output_path : String) (save_comments : Bool) :
    Except Err Outcome × List Ev :=
  if save_comments then
    let comment_output_path := w.stemJsonl output_path
    match w.roomEvent with
    | none => (.error .SessionClosed, [])
    | some room_event =>
      let r := stream_phase w output_path
      (r.fst, .roomResolved room_event ::
              .commentStart room_event comment_output_path .append :: r.snd)
  else stream_phase w output_path

/-- Lines 62-63: construct `NicoLiveWS` and `asyncio.create_task(nlws.connect())`. -/
def session_phase (w : World) (output_path : String) (save_comments : Bool) :
    Except Err Outcome × List Ev :=
  let r := comment_phase w output_path save_comments
  (r.fst, .wsConnect :: r.snd)

/-- Lines 55-61: if the destination exists, loop on the overwrite prompt;
`y` proceeds, `n` returns from `_download`. -/
def confirm_phase (w : World) (output_path : String) (save_comments : Bool) :
    Except Err Outcome × List Ev :=
  if w.pathExists output_path then
    match confirm_overwrite w.answers with
    | none => (.error .EOFError, [.overwritePrompt output_path])
    | some false => (.ok .aborted, [.overwritePrompt output_path])
    | some true =>
      let r := session_phase w output_path save_comments
      (r.fst, .overwritePrompt output_path :: r.snd)
  else session_phase w output_path save_comments

/-- The id normalization of `_download` (nicolive_dl.py lines 49-50):
`if lvid.startswith(LIVE_URL_PREFIX): lvid = lvid[len(LIVE_URL_PREFIX):]`.
`startswith` is the character-prefix test, embedded via `List.isPrefixOf`
on the character data; the slice drops `len(LIVE_URL_PREFIX)` characters. -/
def normalize_lvid (lvid : String) : String :=
  if LIVE_URL_PREFIX.data.isPrefixOf lvid.data then
    lvid.drop LIVE_URL_PREFIX.length
  else lvid

/-- `NicoLiveDL._download` (nicolive_dl.py lines 48-76): normalize the id,
resolve info, sanitize the title, format the destination path, confirm
overwrite if needed, start the websocket, optionally start comment
capture after the room event, wait for the stream uri, run ffmpeg, close
the session. -/
def _download (w : World) (lvid : String) (output : String)
    (save_comments : Bool) : Except Err Outcome × List Ev :=
  let lvid := normalize_lvid lvid
  match get_info w lvid with
  | (.error e, evs) => (.error e, evs)
  | (.ok info, evs) =>
    let title := w.sanitize info.title
    let output_path := w.fmt output title info.lvid
    let r := confirm_phase w output_path save_comments
    (r.fst, evs ++ r.snd)

/-- Whether a `get_info` result is the `NotFound` failure, i.e. a
`SelectException` (the repository's "Not Found #embedded-data" error). -/
def isNotFound : Except Err NicoLiveInfo → Bool
  | .error (.SelectException _) => true
  | _ => false

/-! Concrete data used by witnesses and counterexamples. -/

/-- Decoded data of a watchable broadcast for a full member. -/
def ddMember : DecodedData :=
  ⟨⟨"lv123456789", "title1"⟩, ⟨true, []⟩, ⟨false⟩, ⟨⟨"wss://a.b/c"⟩⟩⟩

/-- Decoded data of a watchable broadcast for a trial-watch target. -/
def ddTrial : DecodedData :=
  ⟨⟨"lv123456789", "title1"⟩, ⟨true, []⟩, ⟨true⟩, ⟨⟨"wss://a.b/c"⟩⟩⟩

/-- Decoded data of a broadcast the platform rejects. -/
def ddRejected : DecodedData :=
  ⟨⟨"lv123456789", "title1"⟩, ⟨false, ["notLogin"]⟩, ⟨true⟩, ⟨⟨"wss://a.b/c"⟩⟩⟩

/-- A trial-watch event of the relevant type. -/
def twState (b : Bool) : TrialWatchEvent := ⟨6108, "trialWatchState", "transparent", b⟩

/-- Base oracle: page present, decode succeeds with `ddMember`, no trial
events, fresh destination, room and stream both delivered, sink exits 0. -/
def wBase : World where
  page := fun _ => ⟨some ⟨"props"⟩⟩
  decode := fun _ => some ddMember
  trialEvents := fun _ => []
  sanitize := fun t => t
  fmt := fun _ title lvid => title ++ "-" ++ lvid ++ ".ts"
  stemJsonl := fun p => p ++ ".jsonl"
  pathExists := fun _ => false
  answers := []
  roomEvent := some "room0"
  streamUri := some "wss://stream/xyz"
  sinkRun := some 0

/-! Helper lemmas about the trial-watch aggregation. -/

/-- All filtered events enabled (in particular, the empty list) aggregates to all. -/
theorem get_tiralWatch_info_eq_all {l : List TrialWatchEvent}
    (h : ∀ e ∈ l.filter (fun e => e.type == "trialWatchState"), e.enabled = true) :
    get_tiralWatch_info l = "all" := by
  have hall : (l.filter (fun e => e.type == "trialWatchState")).all (fun x => x.enabled) = true :=
    List.all_eq_true.mpr h
  simp [get_tiralWatch_info, hall]

/-- A nonempty filtered list with every event disabled aggregates to no. -/
theorem get_tiralWatch_info_eq_no {l : List TrialWatchEvent}
    (hne : l.filter (fun e => e.type == "trialWatchState") ≠ [])
    (h : ∀ e ∈ l.filter (fun e => e.type == "trialWatchState"), e.enabled = false) :
    get_tiralWatch_info l = "no" := by
  have hany : (l.filter (fun e => e.type == "trialWatchState")).any (fun x => x.enabled) = false := by
    rw [List.any_eq_false]
    intro x hx
    simp [h x hx]
  have hall : (l.filter (fun e => e.type == "trialWatchState")).all (fun x => x.enabled) = false := by
    rcases List.exists_mem_of_ne_nil _ hne with ⟨x, hx⟩
    rw [Bool.eq_false_iff]
    intro hcontra
    have := List.all_eq_true.mp hcontra x hx
    rw [h x hx] at this
    exact Bool.false_ne_true this
  simp [get_tiralWatch_info, hall, hany]

/-- A mix of enabled and disabled filtered events aggregates to partial. -/
theorem get_tiralWatch_info_eq_partial {l : List TrialWatchEvent}
    (hyes : ∃ e ∈ l.filter (fun e => e.type == "trialWatchState"), e.enabled = true)
    (hno : ∃ e ∈ l.filter (fun e => e.type == "trialWatchState"), e.enabled = false) :
    get_tiralWatch_info l = "partial" := by
  have hany : (l.filter (fun e => e.type == "trialWatchState")).any (fun x => x.enabled) = true :=
    List.any_eq_true.mpr hyes
  have hall : (l.filter (fun e => e.type == "trialWatchState")).all (fun x => x.enabled) = false := by
    rcases hno with ⟨x, hx, hxe⟩
    rw [Bool.eq_false_iff]
    intro hcontra
    have := List.all_eq_true.mp hcontra x hx
    rw [hxe] at this
    exact Bool.false_ne_true this
  simp [get_tiralWatch_info, hall, hany]

/-- World whose trial-watch endpoint reports one enabled and one disabled
`trialWatchState` event for every broadcast, and whose page decodes to a
trial-watch-target account. -/
def wMixed : World :=
  { wBase with
    decode := fun _ => some ddTrial
    trialEvents := fun _ => [twState true, twState false] }

/-- World whose trial-watch endpoint reports a disabled event (data that
would contradict full access if it were consulted). -/
def wContradict : World :=
  { wBase with trialEvents := fun _ => [twState false] }

/-- C1: for every list of trial-watch events filtered to type
`trialWatchState`, the availability aggregation maps: every event enabled
to full access; no event enabled on a non-empty list to the
`payment needed` unavailable failure; a mix of enabled and disabled to
partial access (warning emitted, check succeeds); the empty list to full
access. -/
theorem C1_trial_watch_aggregation (w : World) (dd : DecodedData)
    (hcw : dd.userProgramWatch.canWatch = true)
    (htw : dd.user.isTrialWatchTarget = true) :
    ((∀ e ∈ (w.trialEvents dd.program.nicoliveProgramId).filter
          (fun e => e.type == "trialWatchState"), e.enabled = true) →
      availability_check w dd =
        (.ok (), [.trialFetch dd.program.nicoliveProgramId])) ∧
    ((w.trialEvents dd.program.nicoliveProgramId).filter
          (fun e => e.type == "trialWatchState") ≠ [] →
     (∀ e ∈ (w.trialEvents dd.program.nicoliveProgramId).filter
          (fun e => e.type == "trialWatchState"), e.enabled = false) →
      availability_check w dd =
        (.error (.LiveUnavailableException dd.program.nicoliveProgramId
            .paymentNeeded),
         [.trialFetch dd.program.nicoliveProgramId])) ∧
    ((∃ e ∈ (w.trialEvents dd.program.nicoliveProgramId).filter
          (fun e => e.type == "trialWatchState"), e.enabled = true) →
     (∃ e ∈ (w.trialEvents dd.program.nicoliveProgramId).filter
          (fun e => e.type == "trialWatchState"), e.enabled = false) →
      availability_check w dd =
        (.ok (), [.trialFetch dd.program.nicoliveProgramId,
                  .warn dd.program.nicoliveProgramId])) ∧
    ((w.trialEvents dd.program.nicoliveProgramId).filter
          (fun e => e.type == "trialWatchState") = [] →
      availability_check w dd =
        (.ok (), [.trialFetch dd.program.nicoliveProgramId])) := by
  refine ⟨?_, ?_, ?_, ?_⟩
  · intro h
    have key := get_tiralWatch_info_eq_all h
    simp [availability_check, hcw, htw, key]
  · intro hne h
    have key := get_tiralWatch_info_eq_no hne h
    simp [availability_check, hcw, htw, key]
  · intro hyes hno
    have key := get_tiralWatch_info_eq_partial hyes hno
    simp [availability_check, hcw, htw, key]
  · intro hemp
    have key := get_tiralWatch_info_eq_all (l := w.trialEvents dd.program.nicoliveProgramId)
      (by rw [hemp]; intro e he; simp at he)
    simp [availability_check, hcw, htw, key]

/-- Witness for C1 at a concrete mixed event list. -/
theorem C1_trial_watch_aggregation_witness :
    ddTrial.userProgramWatch.canWatch = true ∧
    ddTrial.user.isTrialWatchTarget = true ∧
    (∃ e ∈ (wMixed.trialEvents "lv123456789").filter
        (fun e => e.type == "trialWatchState"), e.enabled = true) ∧
    (∃ e ∈ (wMixed.trialEvents "lv123456789").filter
        (fun e => e.type == "trialWatchState"), e.enabled = false) ∧
    availability_check wMixed ddTrial =
      (.ok (), [.trialFetch "lv123456789", .warn "lv123456789"]) := by
  refine ⟨rfl, rfl, by decide, by decide, ?_⟩
  exact (C1_trial_watch_aggregation wMixed ddTrial rfl rfl).2.2.1 (by decide) (by decide)

/-- C2: when `canWatch` is false, `availability_check` fails with the
unavailable exception carrying the platform's `rejectedReasons`, and the
trial-watch schedule endpoint is never fetched, whatever the trial-watch
flag or the data the endpoint would return. -/
theorem C2_canwatch_short_circuit (w : World) (dd : DecodedData)
    (h : dd.userProgramWatch.canWatch = false) :
    availability_check w dd =
      (.error (.LiveUnavailableException dd.program.nicoliveProgramId
          (.rejectedReasons dd.userProgramWatch.rejectedReasons)), []) ∧
    ∀ lv, Ev.trialFetch lv ∉ (availability_check w dd).snd := by
  constructor
  · simp [availability_check, h]
  · intro lv
    simp [availability_check, h]

/-- Witness for C2 at a rejected broadcast whose account is a trial-watch
target and whose endpoint would report a disabled event. -/
theorem C2_canwatch_short_circuit_witness :
    ddRejected.userProgramWatch.canWatch = false ∧
    ddRejected.user.isTrialWatchTarget = true ∧
    availability_check wContradict ddRejected =
      (.error (.LiveUnavailableException "lv123456789"
          (.rejectedReasons ["notLogin"])), []) ∧
    Ev.trialFetch "lv123456789" ∉ (availability_check wContradict ddRejected).snd := by
  have h := C2_canwatch_short_circuit wContradict ddRejected rfl
  exact ⟨rfl, rfl, h.1, h.2 "lv123456789"⟩

/-- C6: when `canWatch` is true and the account is not a trial-watch
target, `availability_check` succeeds with an empty effect trace: full
access, no fetch of the trial-watch endpoint, no warning. -/
theorem C6_member_bypass (w : World) (dd : DecodedData)
    (hcw : dd.userProgramWatch.canWatch = true)
    (htw : dd.user.isTrialWatchTarget = false) :
    availability_check w dd = (.ok (), []) ∧
    ∀ lv, Ev.trialFetch lv ∉ (availability_check w dd).snd := by
  constructor
  · simp [availability_check, hcw, htw]
  · intro lv
    simp [availability_check, hcw, htw]

/-- Witness for C6 against a world whose trial-watch endpoint would report
a disabled (contradictory) event. -/
theorem C6_member_bypass_witness :
    ddMember.userProgramWatch.canWatch = true ∧
    ddMember.user.isTrialWatchTarget = false ∧
    availability_check wContradict ddMember = (.ok (), []) ∧
    Ev.trialFetch "lv123456789" ∉ (availability_check wContradict ddMember).snd := by
  have h := C6_member_bypass wContradict ddMember rfl rfl
  exact ⟨rfl, rfl, h.1, h.2 "lv123456789"⟩

/-! Trace-shape lemmas for `get_info` and `_download`. -/

/-- The trace of `get_info` always begins with the page fetch. -/
theorem get_info_snd_cons (w : World) (lvid : String) :
    ∃ rest, (get_info w lvid).snd = Ev.pageFetch lvid :: rest := by
  unfold get_info
  rcases (w.page lvid).embedded with _ | tag
  · exact ⟨[], rfl⟩
  · dsimp only
    rcases w.decode tag.dataProps with _ | dd
    · exact ⟨[], rfl⟩
    · dsimp only
      rcases availability_check w dd with ⟨res, evs2⟩
      rcases res with e | u
      · exact ⟨evs2, rfl⟩
      · exact ⟨evs2, rfl⟩

/-- The first event of every `_download` run is the page fetch of the
normalized id: normalization happens before any network access. -/
theorem _download_head (w : World) (lvid output : String) (sc : Bool) :
    (_download w lvid output sc).snd.head? =
      some (Ev.pageFetch (normalize_lvid lvid)) := by
  obtain ⟨rest, hsnd⟩ := get_info_snd_cons w (normalize_lvid lvid)
  unfold _download
  dsimp only
  rcases hgi : get_info w (normalize_lvid lvid) with ⟨res, evs⟩
  rw [hgi] at hsnd
  simp only at hsnd
  rcases res with e | info
  · simp [hsnd]
  · simp [hsnd]

/-- Stripping the watch-URL head: normalizing `LIVE_URL_PREFIX ++ s`
yields `s`. -/
theorem normalize_lvid_strip (s : String) :
    normalize_lvid ( LIVE_URL_PREFIX ++ s) = s := by
  have hpre : LIVE_URL_PREFIX.data.isPrefixOf ( LIVE_URL_PREFIX ++ s).data = true := by
    rw [String.data_append, List.isPrefixOf_iff_prefix]
    exact List.prefix_append _ _
  unfold normalize_lvid
  rw [if_pos hpre]
  apply String.ext
  rw [String.data_drop, String.data_append]
  have hlen : LIVE_URL_PREFIX.length = LIVE_URL_PREFIX.data.length :=
    (String.length_data _).symm
  rw [hlen]
  exact List.drop_left _ _

/-- C9: a broadcast id supplied as a full watch URL is normalized to the
bare id by stripping the prefix, and the first thing any run does is fetch
the page of that bare id, so normalization precedes every network fetch. -/
theorem C9_url_normalization (w : World) (s output : String) (sc : Bool) :
    normalize_lvid ( LIVE_URL_PREFIX ++ s) = s ∧
    (_download w ( LIVE_URL_PREFIX ++ s) output sc).snd.head? =
      some (Ev.pageFetch s) := by
  refine ⟨normalize_lvid_strip s, ?_⟩
  rw [_download_head, normalize_lvid_strip]

/-- C10: an id that does not start with the exact watch-URL head is passed
through normalization unchanged and is used verbatim for the page fetch. -/
theorem C10_non_prefixed_identity (w : World) (s output : String) (sc : Bool)
    (h : LIVE_URL_PREFIX.data.isPrefixOf s.data = false) :
    normalize_lvid s = s ∧
    (_download w s output sc).snd.head? = some (Ev.pageFetch s) := by
  have hn : normalize_lvid s = s := by
    unfold normalize_lvid
    rw [if_neg (by simp [h])]
  exact ⟨hn, by rw [_download_head, hn]⟩

/-- Witness for C10 at an `http://` scheme URL: not normalized, used verbatim. -/
theorem C10_non_prefixed_identity_witness :
    LIVE_URL_PREFIX.data.isPrefixOf
      "http://live.nicovideo.jp/watch/lv123456789".data = false ∧
    normalize_lvid "http://live.nicovideo.jp/watch/lv123456789" =
      "http://live.nicovideo.jp/watch/lv123456789" ∧
    (_download wBase "http://live.nicovideo.jp/watch/lv123456789"
        "{title}-{lvid}.ts" false).snd.head? =
      some (Ev.pageFetch "http://live.nicovideo.jp/watch/lv123456789") := by
  have h := C10_non_prefixed_identity wBase
    "http://live.nicovideo.jp/watch/lv123456789" "{title}-{lvid}.ts" false (by decide)
  exact ⟨by decide, h.1, h.2⟩

/-- World whose pages carry no `#embedded-data` tag. -/
def wNoTag : World :=
  { wBase with page := fun _ => ⟨none⟩ }

/-- World whose pages carry an `#embedded-data` tag with a payload on
which `json.loads(unquote(...))` fails. -/
def wMalformed : World :=
  { wBase with decode := fun _ => none }

/-- World of a trial-watch-target account whose trial-watch endpoint
reports a single disabled event. -/
def wTrialNo : World :=
  { wBase with
    decode := fun _ => some ddTrial
    trialEvents := fun _ => [twState false] }

/-- C7 (amended): `get_info` fails with the repository's NotFound error
(`SelectException`) exactly when the `#embedded-data` tag is absent; a
present tag whose payload does not decode fails with the JSON decode
error instead, not with NotFound; an availability failure is propagated
unchanged; and the info record is extracted and returned only when the
availability check has passed. -/
theorem C7_get_info_contract (w : World) (lvid : String) :
    ((w.page lvid).embedded = none →
      get_info w lvid =
        (.error (.SelectException "Not Found #embedded-data"),
         [.pageFetch lvid])) ∧
    (∀ tag, (w.page lvid).embedded = some tag →
      w.decode tag.dataProps = none →
      get_info w lvid = (.error .JSONDecodeError, [.pageFetch lvid])) ∧
    (∀ tag dd e evs2, (w.page lvid).embedded = some tag →
      w.decode tag.dataProps = some dd →
      availability_check w dd = (.error e, evs2) →
      (get_info w lvid).fst = .error e) ∧
    (∀ tag dd evs2, (w.page lvid).embedded = some tag →
      w.decode tag.dataProps = some dd →
      availability_check w dd = (.ok (), evs2) →
      (get_info w lvid).fst =
        .ok ⟨lvid, dd.program.title, dd.site.relive.webSocketUrl⟩) := by
  refine ⟨?_, ?_, ?_, ?_⟩
  · intro h
    unfold get_info
    rw [h]
  · intro tag h hdec
    unfold get_info
    rw [h]
    dsimp only
    rw [hdec]
  · intro tag dd e evs2 h hdec hac
    unfold get_info
    rw [h]
    dsimp only
    rw [hdec]
    dsimp only
    rw [hac]
  · intro tag dd evs2 h hdec hac
    unfold get_info
    rw [h]
    dsimp only
    rw [hdec]
    dsimp only
    rw [hac]

/-- Counterexample for C7 as stated: a present but malformed metadata
payload makes `get_info` fail with the JSON decode error, which is not
the NotFound (`SelectException`) failure the claim requires for a
malformed metadata block. -/
theorem C7_malformed_not_notfound :
    (get_info wMalformed "lv123456789").fst = .error .JSONDecodeError ∧
    isNotFound (get_info wMalformed "lv123456789").fst = false := ⟨rfl, rfl⟩

/-- Witness for C7 exercising all four branches at concrete worlds. -/
theorem C7_get_info_contract_witness :
    (wNoTag.page "lv123456789").embedded = none ∧
    get_info wNoTag "lv123456789" =
      (.error (.SelectException "Not Found #embedded-data"),
       [.pageFetch "lv123456789"]) ∧
    (wMalformed.page "lv123456789").embedded = some ⟨"props"⟩ ∧
    wMalformed.decode "props" = none ∧
    get_info wMalformed "lv123456789" =
      (.error .JSONDecodeError, [.pageFetch "lv123456789"]) ∧
    availability_check wTrialNo ddTrial =
      (.error (.LiveUnavailableException "lv123456789" .paymentNeeded),
       [.trialFetch "lv123456789"]) ∧
    (get_info wTrialNo "lv123456789").fst =
      .error (.LiveUnavailableException "lv123456789" .paymentNeeded) ∧
    availability_check wBase ddMember = (.ok (), []) ∧
    (get_info wBase "lv123456789").fst =
      .ok ⟨"lv123456789", "title1", "wss://a.b/c"⟩ := by
  refine ⟨rfl, ?_, rfl, rfl, ?_, rfl, ?_, rfl, ?_⟩
  · exact (C7_get_info_contract wNoTag "lv123456789").1 rfl
  · exact (C7_get_info_contract wMalformed "lv123456789").2.1 ⟨"props"⟩ rfl rfl
  · exact (C7_get_info_contract wTrialNo "lv123456789").2.2.1 ⟨"props"⟩ ddTrial
      (.LiveUnavailableException "lv123456789" .paymentNeeded)
      [.trialFetch "lv123456789"] rfl rfl rfl
  · exact (C7_get_info_contract wBase "lv123456789").2.2.2 ⟨"props"⟩ ddMember []
      rfl rfl rfl

/-! Event classifiers and per-phase trace lemmas for the orchestration
claims. -/

/-- Events that `get_info` (page fetch, trial-watch fetch, warning) can emit. -/
def core_fetch_ev : Ev → Bool
  | .pageFetch _ => true
  | .trialFetch _ => true
  | .warn _ => true
  | _ => false

/-- Events the stream-wait/sink stage can emit. -/
def media_ev : Ev → Bool
  | .streamResolved _ => true
  | .sinkLaunch _ _ => true
  | .sinkExited _ => true
  | .sessionClose => true
  | _ => false

/-- The availability check only fetches the trial schedule and warns. -/
theorem availability_check_snd_events (w : World) (dd : DecodedData) :
    ∀ e ∈ (availability_check w dd).snd, core_fetch_ev e = true := by
  intro e he
  unfold availability_check at he
  by_cases h1 : dd.userProgramWatch.canWatch = false
  · simp [h1] at he
  · rw [if_neg h1] at he
    by_cases h2 : dd.user.isTrialWatchTarget = true
    · rw [if_pos h2] at he
      dsimp only at he
      by_cases h3 :
          get_tiralWatch_info (w.trialEvents dd.program.nicoliveProgramId) = "no"
      · rw [if_pos h3] at he
        simp at he
        subst he
        rfl
      · rw [if_neg h3] at he
        by_cases h4 :
            get_tiralWatch_info (w.trialEvents dd.program.nicoliveProgramId) = "partial"
        · rw [if_pos h4] at he
          simp at he
          rcases he with he | he <;> subst he <;> rfl
        · rw [if_neg h4] at he
          simp at he
          subst he
          rfl
    · rw [if_neg h2] at he
      simp at he

/-- The info-resolution trace holds only fetch/warn events. -/
theorem get_info_snd_events (w : World) (l : String) :
    ∀ e ∈ (get_info w l).snd, core_fetch_ev e = true := by
  intro e
  unfold get_info
  rcases (w.page l).embedded with _ | tag
  · intro he
    simp at he
    subst he
    rfl
  · dsimp only
    rcases w.decode tag.dataProps with _ | dd
    · intro he
      simp at he
      subst he
      rfl
    · dsimp only
      rcases hac : availability_check w dd with ⟨res, evs2⟩
      have hev := availability_check_snd_events w dd
      rw [hac] at hev
      rcases res with e2 | u
      · intro he
        simp at he
        rcases he with he | he
        · subst he
          rfl
        · exact hev e he
      · intro he
        simp at he
        rcases he with he | he
        · subst he
          rfl
        · exact hev e he

/-- The stream-wait/sink stage emits only media events. -/
theorem stream_phase_snd_events (w : World) (p : String) :
    ∀ e ∈ (stream_phase w p).snd, media_ev e = true := by
  intro e
  unfold stream_phase
  rcases w.streamUri with _ | uri
  · intro he
    simp at he
  · dsimp only
    unfold sink_phase
    rcases w.sinkRun with _ | c
    · intro he
      simp at he
      rcases he with he | he <;> subst he <;> rfl
    · intro he
      simp at he
      rcases he with he | he | he | he <;> subst he <;> rfl

/-- A sink launch recorded by `sink_phase` names exactly its arguments. -/
theorem sink_phase_sinkLaunch (w : World) (uri p u d : String) :
    Ev.sinkLaunch u d ∈ (sink_phase w uri p).snd → u = uri ∧ d = p := by
  unfold sink_phase
  rcases w.sinkRun with _ | c
  · intro hmem
    simp at hmem
    exact hmem
  · intro hmem
    simp at hmem
    exact hmem

/-- When the subprocess runs and terminates, the sink stage records the
launch, the exit code, and the session close, and reports completion. -/
theorem sink_phase_run (w : World) (uri p : String) (c : Int)
    (h : w.sinkRun = some c) :
    sink_phase w uri p =
      (.ok .completed, [.sinkLaunch uri p, .sinkExited c, .sessionClose]) := by
  unfold sink_phase
  rw [h]

/-- When launching or awaiting the subprocess raises, the sink stage
fails right after the launch attempt and never closes the session. -/
theorem sink_phase_fail (w : World) (uri p : String) (h : w.sinkRun = none) :
    sink_phase w uri p = (.error .SinkLaunchError, [.sinkLaunch uri p]) := by
  unfold sink_phase
  rw [h]

/-- A sink launch in the stream stage pins the stream uri and the
destination, and exposes the stage's structure. -/
theorem stream_phase_sinkLaunch (w : World) (p u d : String) :
    Ev.sinkLaunch u d ∈ (stream_phase w p).snd →
      w.streamUri = some u ∧ d = p ∧
      stream_phase w p =
        ((sink_phase w u p).fst, .streamResolved u :: (sink_phase w u p).snd) := by
  unfold stream_phase
  rcases w.streamUri with _ | uri
  · intro hmem
    simp at hmem
  · dsimp only
    intro hmem
    rcases List.mem_cons.mp hmem with h1 | h1
    · exact absurd h1 (by simp)
    · obtain ⟨hu, hd⟩ := sink_phase_sinkLaunch w uri p u d h1
      subst hu
      subst hd
      exact ⟨rfl, rfl, rfl⟩

/-- With no exit code available, the session is never closed in the
stream stage. -/
theorem stream_phase_no_close (w : World) (p : String) (h : w.sinkRun = none) :
    Ev.sessionClose ∉ (stream_phase w p).snd := by
  unfold stream_phase
  rcases w.streamUri with _ | uri
  · simp
  · dsimp only
    rw [sink_phase_fail w uri p h]
    simp

/-- The session stage only prepends the connect event. -/
theorem session_phase_snd (w : World) (p : String) (sc : Bool) :
    (session_phase w p sc).snd = .wsConnect :: (comment_phase w p sc).snd := rfl

/-- The session stage reports the comment stage's outcome. -/
theorem session_phase_fst (w : World) (p : String) (sc : Bool) :
    (session_phase w p sc).fst = (comment_phase w p sc).fst := rfl

/-- A sink launch in the comment stage comes from the stream stage, whose
trace embeds in order into the comment stage's trace. -/
theorem comment_phase_sinkLaunch (w : World) (p : String) (sc : Bool)
    (u d : String) :
    Ev.sinkLaunch u d ∈ (comment_phase w p sc).snd →
      Ev.sinkLaunch u d ∈ (stream_phase w p).snd ∧
      (comment_phase w p sc).fst = (stream_phase w p).fst ∧
      (stream_phase w p).snd.Sublist (comment_phase w p sc).snd := by
  unfold comment_phase
  by_cases hsc : sc = true
  · rw [if_pos hsc]
    dsimp only
    rcases w.roomEvent with _ | room
    · intro hmem
      simp at hmem
    · dsimp only
      intro hmem
      rcases List.mem_cons.mp hmem with h1 | h1
      · exact absurd h1 (by simp)
      · rcases List.mem_cons.mp h1 with h2 | h2
        · exact absurd h2 (by simp)
        · exact ⟨h2, rfl, (List.Sublist.refl _).cons _ |>.cons _⟩
  · rw [if_neg hsc]
    intro hmem
    exact ⟨hmem, rfl, List.Sublist.refl _⟩

/-- With no exit code available, the session is never closed in the
comment stage. -/
theorem comment_phase_no_close (w : World) (p : String) (sc : Bool)
    (h : w.sinkRun = none) :
    Ev.sessionClose ∉ (comment_phase w p sc).snd := by
  unfold comment_phase
  by_cases hsc : sc = true
  · rw [if_pos hsc]
    dsimp only
    rcases w.roomEvent with _ | room
    · simp
    · dsimp only
      intro hmem
      rcases List.mem_cons.mp hmem with h1 | h1
      · simp at h1
      · rcases List.mem_cons.mp h1 with h2 | h2
        · simp at h2
        · exact stream_phase_no_close w p h h2
  · rw [if_neg hsc]
    exact stream_phase_no_close w p h

/-- A comment-capture start in the comment stage targets the sibling
`.jsonl` destination in append mode, and strictly follows the room event. -/
theorem comment_phase_commentStart (w : World) (p : String) (sc : Bool)
    (r dst : String) (m : FileMode) :
    Ev.commentStart r dst m ∈ (comment_phase w p sc).snd →
      dst = w.stemJsonl p ∧ m = FileMode.append ∧
      [Ev.roomResolved r, Ev.commentStart r dst m].Sublist
        (comment_phase w p sc).snd := by
  unfold comment_phase
  by_cases hsc : sc = true
  · rw [if_pos hsc]
    dsimp only
    rcases w.roomEvent with _ | room
    · intro hmem
      simp at hmem
    · dsimp only
      intro hmem
      rcases List.mem_cons.mp hmem with h1 | h1
      · exact absurd h1 (by simp)
      · rcases List.mem_cons.mp h1 with h2 | h2
        · simp only [Ev.commentStart.injEq] at h2
          obtain ⟨hr, hdst, hm⟩ := h2
          subst hr
          subst hdst
          subst hm
          exact ⟨rfl, rfl, (List.nil_sublist _).cons₂ _ |>.cons₂ _⟩
        · have hcl := stream_phase_snd_events w p _ h2
          simp [media_ev] at hcl
  · rw [if_neg hsc]
    intro hmem
    have hcl := stream_phase_snd_events w p _ hmem
    simp [media_ev] at hcl

/-- A sink launch in the confirm stage comes from the comment stage, the
comment stage's trace embeds in order, and — decisively for the overwrite
claim — an existing destination implies the operator answered yes. -/
theorem confirm_phase_sinkLaunch (w : World) (p : String) (sc : Bool)
    (u d : String) :
    Ev.sinkLaunch u d ∈ (confirm_phase w p sc).snd →
      Ev.sinkLaunch u d ∈ (comment_phase w p sc).snd ∧
      (confirm_phase w p sc).fst = (comment_phase w p sc).fst ∧
      (comment_phase w p sc).snd.Sublist (confirm_phase w p sc).snd ∧
      (w.pathExists p = true → confirm_overwrite w.answers = some true) := by
  unfold confirm_phase
  by_cases hex : w.pathExists p = true
  · rw [if_pos hex]
    rcases hco : confirm_overwrite w.answers with _ | b
    · intro hmem
      simp at hmem
    · rcases b with _ | _
      · intro hmem
        simp at hmem
      · dsimp only
        intro hmem
        rcases List.mem_cons.mp hmem with h1 | h1
        · exact absurd h1 (by simp)
        · rw [session_phase_snd] at h1
          rcases List.mem_cons.mp h1 with h2 | h2
          · exact absurd h2 (by simp)
          · refine ⟨h2, session_phase_fst w p sc, ?_, fun _ => rfl⟩
            rw [session_phase_snd]
            exact (List.Sublist.refl _).cons _ |>.cons _
  · rw [if_neg hex]
    intro hmem
    rw [session_phase_snd] at hmem
    rcases List.mem_cons.mp hmem with h1 | h1
    · exact absurd h1 (by simp)
    · refine ⟨h1, session_phase_fst w p sc, ?_, fun hc => absurd hc hex⟩
      rw [session_phase_snd]
      exact (List.Sublist.refl _).cons _

/-- With no exit code available, the session is never closed in the
confirm stage. -/
theorem confirm_phase_no_close (w : World) (p : String) (sc : Bool)
    (h : w.sinkRun = none) :
    Ev.sessionClose ∉ (confirm_phase w p sc).snd := by
  unfold confirm_phase
  by_cases hex : w.pathExists p = true
  · rw [if_pos hex]
    rcases confirm_overwrite w.answers with _ | b
    · simp
    · rcases b with _ | _
      · simp
      · dsimp only
        intro hmem
        rcases List.mem_cons.mp hmem with h1 | h1
        · simp at h1
        · rw [session_phase_snd] at h1
          rcases List.mem_cons.mp h1 with h2 | h2
          · simp at h2
          · exact comment_phase_no_close w p sc h h2
  · rw [if_neg hex]
    intro hmem
    rw [session_phase_snd] at hmem
    rcases List.mem_cons.mp hmem with h1 | h1
    · simp at h1
    · exact comment_phase_no_close w p sc h h1

/-- A comment-capture start in the confirm stage targets the sibling
destination in append mode and strictly follows the room event. -/
theorem confirm_phase_commentStart (w : World) (p : String) (sc : Bool)
    (r dst : String) (m : FileMode) :
    Ev.commentStart r dst m ∈ (confirm_phase w p sc).snd →
      dst = w.stemJsonl p ∧ m = FileMode.append ∧
      [Ev.roomResolved r, Ev.commentStart r dst m].Sublist
        (confirm_phase w p sc).snd := by
  unfold confirm_phase
  by_cases hex : w.pathExists p = true
  · rw [if_pos hex]
    rcases confirm_overwrite w.answers with _ | b
    · intro hmem
      simp at hmem
    · rcases b with _ | _
      · intro hmem
        simp at hmem
      · dsimp only
        intro hmem
        rcases List.mem_cons.mp hmem with h1 | h1
        · exact absurd h1 (by simp)
        · rw [session_phase_snd] at h1
          rcases List.mem_cons.mp h1 with h2 | h2
          · exact absurd h2 (by simp)
          · obtain ⟨hdst, hm, hsub⟩ := comment_phase_commentStart w p sc r dst m h2
            refine ⟨hdst, hm, ?_⟩
            rw [session_phase_snd]
            exact hsub.cons _ |>.cons _
  · rw [if_neg hex]
    intro hmem
    rw [session_phase_snd] at hmem
    rcases List.mem_cons.mp hmem with h1 | h1
    · exact absurd h1 (by simp)
    · obtain ⟨hdst, hm, hsub⟩ := comment_phase_commentStart w p sc r dst m h1
      refine ⟨hdst, hm, ?_⟩
      rw [session_phase_snd]
      exact hsub.cons _

/-- Every run either stops inside info resolution, or appends the confirm
stage's trace for the computed destination path to the info trace. -/
theorem _download_cases (w : World) (lvid output : String) (sc : Bool) :
    (_download w lvid output sc).snd = (get_info w (normalize_lvid lvid)).snd ∨
    ∃ p, (_download w lvid output sc).fst = (confirm_phase w p sc).fst ∧
      (_download w lvid output sc).snd =
        (get_info w (normalize_lvid lvid)).snd ++ (confirm_phase w p sc).snd := by
  unfold _download
  dsimp only
  rcases hgi : get_info w (normalize_lvid lvid) with ⟨res, evs⟩
  rcases res with e | info
  · exact .inl rfl
  · exact .inr ⟨w.fmt output (w.sanitize info.title) info.lvid, rfl, rfl⟩

/-- A non-fetch event in a run's trace lives in the confirm stage of the
run's destination path, whose trace embeds in order into the run's. -/
theorem mem_download_confirm (w : World) (lvid output : String) (sc : Bool)
    (e : Ev) (he : core_fetch_ev e = false)
    (hmem : e ∈ (_download w lvid output sc).snd) :
    ∃ p, e ∈ (confirm_phase w p sc).snd ∧
      (_download w lvid output sc).fst = (confirm_phase w p sc).fst ∧
      (confirm_phase w p sc).snd.Sublist (_download w lvid output sc).snd := by
  rcases _download_cases w lvid output sc with h | ⟨p, hfst, hsnd⟩
  · rw [h] at hmem
    have hc := get_info_snd_events w (normalize_lvid lvid) e hmem
    rw [he] at hc
    exact absurd hc (by simp)
  · rw [hsnd] at hmem
    rcases List.mem_append.mp hmem with h1 | h1
    · have hc := get_info_snd_events w (normalize_lvid lvid) e h1
      rw [he] at hc
      exact absurd hc (by simp)
    · refine ⟨p, h1, hfst, ?_⟩
      rw [hsnd]
      exact List.sublist_append_right _ _

/-- C5: in every run, a comment-capture start is preceded in the trace by
the room event whose handle it uses, and a sink launch is preceded by the
stream event that carried its address. -/
theorem C5_ordering (w : World) (lvid output : String) (sc : Bool)
    (r dst : String) (m : FileMode) (u d : String) :
    (Ev.commentStart r dst m ∈ (_download w lvid output sc).snd →
      [Ev.roomResolved r, Ev.commentStart r dst m].Sublist
        (_download w lvid output sc).snd) ∧
    (Ev.sinkLaunch u d ∈ (_download w lvid output sc).snd →
      [Ev.streamResolved u, Ev.sinkLaunch u d].Sublist
        (_download w lvid output sc).snd) := by
  constructor
  · intro hmem
    obtain ⟨p, hp, _, hsub⟩ :=
      mem_download_confirm w lvid output sc (Ev.commentStart r dst m) rfl hmem
    obtain ⟨_, _, hsub2⟩ := confirm_phase_commentStart w p sc r dst m hp
    exact hsub2.trans hsub
  · intro hmem
    obtain ⟨p, hp, _, hsub⟩ :=
      mem_download_confirm w lvid output sc (Ev.sinkLaunch u d) rfl hmem
    obtain ⟨hmemc, _, hsubc, _⟩ := confirm_phase_sinkLaunch w p sc u d hp
    obtain ⟨hmems, _, hsubs⟩ := comment_phase_sinkLaunch w p sc u d hmemc
    obtain ⟨hsu, hdp, heq⟩ := stream_phase_sinkLaunch w p u d hmems
    have hsnd : (stream_phase w p).snd =
        .streamResolved u :: (sink_phase w u p).snd := by rw [heq]
    have hmem3 : Ev.sinkLaunch u d ∈ (sink_phase w u p).snd := by
      rw [hsnd] at hmems
      rcases List.mem_cons.mp hmems with h1 | h1
      · exact absurd h1 (by simp)
      · exact h1
    have hstep : [Ev.streamResolved u, Ev.sinkLaunch u d].Sublist
        (stream_phase w p).snd := by
      rw [hsnd]
      exact (List.singleton_sublist.mpr hmem3).cons₂ _
    exact ((hstep.trans hsubs).trans hsubc).trans hsub

/-- Witness for C5 on a full successful run with comment capture. -/
theorem C5_ordering_witness :
    Ev.commentStart "room0" "title1-lv123456789.ts.jsonl" .append ∈
      (_download wBase "lv123456789" "{title}-{lvid}.ts" true).snd ∧
    [Ev.roomResolved "room0",
     Ev.commentStart "room0" "title1-lv123456789.ts.jsonl" .append].Sublist
      (_download wBase "lv123456789" "{title}-{lvid}.ts" true).snd ∧
    Ev.sinkLaunch "wss://stream/xyz" "title1-lv123456789.ts" ∈
      (_download wBase "lv123456789" "{title}-{lvid}.ts" true).snd ∧
    [Ev.streamResolved "wss://stream/xyz",
     Ev.sinkLaunch "wss://stream/xyz" "title1-lv123456789.ts"].Sublist
      (_download wBase "lv123456789" "{title}-{lvid}.ts" true).snd := by
  have h := C5_ordering wBase "lv123456789" "{title}-{lvid}.ts" true "room0"
    "title1-lv123456789.ts.jsonl" .append "wss://stream/xyz" "title1-lv123456789.ts"
  exact ⟨by decide, h.1 (by decide), by decide, h.2 (by decide)⟩

/-- World in which ffmpeg terminates with exit status 1. -/
def wSinkFail : World := { wBase with sinkRun := some 1 }

/-- World in which launching or awaiting ffmpeg raises. -/
def wLaunchFail : World := { wBase with sinkRun := none }

/-- C3 (amended): the orchestrator never inspects the sink's exit status.
Whenever the sink process launches and terminates — with any exit code,
zero or not — the run reports successful completion; only an exception
while launching or awaiting the process surfaces as an error. -/
theorem C3_sink_exit_ignored (w : World) (lvid output : String) (sc : Bool)
    (u d : String) (c : Int) (hrun : w.sinkRun = some c)
    (hmem : Ev.sinkLaunch u d ∈ (_download w lvid output sc).snd) :
    (_download w lvid output sc).fst = .ok .completed := by
  obtain ⟨p, hp, hfst, _⟩ :=
    mem_download_confirm w lvid output sc (Ev.sinkLaunch u d) rfl hmem
  obtain ⟨hmemc, hfst2, _, _⟩ := confirm_phase_sinkLaunch w p sc u d hp
  obtain ⟨hmems, hfst3, _⟩ := comment_phase_sinkLaunch w p sc u d hmemc
  obtain ⟨hsu, hdp, heq⟩ := stream_phase_sinkLaunch w p u d hmems
  have hfst4 : (stream_phase w p).fst = (sink_phase w u p).fst := by rw [heq]
  rw [hfst, hfst2, hfst3, hfst4, sink_phase_run w u p c hrun]

/-- Counterexample for C3 as stated: a run in which ffmpeg exits with
status 1 still reports successful completion — the abnormal termination
of the sink is not surfaced as an error. -/
theorem C3_nonzero_exit_swallowed :
    Ev.sinkExited 1 ∈
      (_download wSinkFail "lv123456789" "{title}-{lvid}.ts" false).snd ∧
    (_download wSinkFail "lv123456789" "{title}-{lvid}.ts" false).fst =
      .ok .completed :=
  ⟨by decide, rfl⟩

/-- Witness for C3 at the exit-status-1 run. -/
theorem C3_sink_exit_ignored_witness :
    wSinkFail.sinkRun = some 1 ∧
    Ev.sinkLaunch "wss://stream/xyz" "title1-lv123456789.ts" ∈
      (_download wSinkFail "lv123456789" "{title}-{lvid}.ts" false).snd ∧
    (_download wSinkFail "lv123456789" "{title}-{lvid}.ts" false).fst =
      .ok .completed := by
  refine ⟨rfl, by decide, ?_⟩
  exact C3_sink_exit_ignored wSinkFail "lv123456789" "{title}-{lvid}.ts" false
    "wss://stream/xyz" "title1-lv123456789.ts" 1 rfl (by decide)

/-- C8 (amended): when the sink subprocess launches and terminates (with
any exit code) the session close strictly follows the sink's termination
in the trace; but when launching or awaiting the subprocess raises, the
session is never closed before the failure propagates. -/
theorem C8_close_after_sink (w : World) (lvid output : String) (sc : Bool)
    (u d : String) (c : Int) :
    (w.sinkRun = some c →
      Ev.sinkLaunch u d ∈ (_download w lvid output sc).snd →
      [Ev.sinkLaunch u d, Ev.sinkExited c, Ev.sessionClose].Sublist
        (_download w lvid output sc).snd) ∧
    (w.sinkRun = none →
      Ev.sessionClose ∉ (_download w lvid output sc).snd) := by
  constructor
  · intro hrun hmem
    obtain ⟨p, hp, _, hsub⟩ :=
      mem_download_confirm w lvid output sc (Ev.sinkLaunch u d) rfl hmem
    obtain ⟨hmemc, _, hsubc, _⟩ := confirm_phase_sinkLaunch w p sc u d hp
    obtain ⟨hmems, _, hsubs⟩ := comment_phase_sinkLaunch w p sc u d hmemc
    obtain ⟨hsu, hdp, heq⟩ := stream_phase_sinkLaunch w p u d hmems
    subst hdp
    have hsnd : (stream_phase w d).snd =
        .streamResolved u :: (sink_phase w u d).snd := by rw [heq]
    have hstep : [Ev.sinkLaunch u d, Ev.sinkExited c, Ev.sessionClose].Sublist
        (stream_phase w d).snd := by
      rw [hsnd, sink_phase_run w u d c hrun]
      exact (List.Sublist.refl _).cons _
    exact ((hstep.trans hsubs).trans hsubc).trans hsub
  · intro hrun hmem
    obtain ⟨p, hp, _, _⟩ :=
      mem_download_confirm w lvid output sc Ev.sessionClose rfl hmem
    exact confirm_phase_no_close w p sc hrun hp

/-- Counterexample for C8 as stated: when launching the sink raises, the
run has reached the sink launch but the session is never closed before
the failure surfaces. -/
theorem C8_launch_failure_skips_close :
    Ev.sinkLaunch "wss://stream/xyz" "title1-lv123456789.ts" ∈
      (_download wLaunchFail "lv123456789" "{title}-{lvid}.ts" false).snd ∧
    (_download wLaunchFail "lv123456789" "{title}-{lvid}.ts" false).fst =
      .error .SinkLaunchError ∧
    Ev.sessionClose ∉
      (_download wLaunchFail "lv123456789" "{title}-{lvid}.ts" false).snd :=
  ⟨by decide, rfl, by decide⟩

/-- Witness for C8 covering both conjuncts at concrete runs. -/
theorem C8_close_after_sink_witness :
    wBase.sinkRun = some 0 ∧
    Ev.sinkLaunch "wss://stream/xyz" "title1-lv123456789.ts" ∈
      (_download wBase "lv123456789" "{title}-{lvid}.ts" false).snd ∧
    [Ev.sinkLaunch "wss://stream/xyz" "title1-lv123456789.ts",
     Ev.sinkExited 0, Ev.sessionClose].Sublist
      (_download wBase "lv123456789" "{title}-{lvid}.ts" false).snd ∧
    wLaunchFail.sinkRun = none ∧
    Ev.sessionClose ∉
      (_download wLaunchFail "lv123456789" "{title}-{lvid}.ts" false).snd := by
  refine ⟨rfl, by decide, ?_, rfl, ?_⟩
  · exact (C8_close_after_sink wBase "lv123456789" "{title}-{lvid}.ts" false
      "wss://stream/xyz" "title1-lv123456789.ts" 0).1 rfl (by decide)
  · exact (C8_close_after_sink wLaunchFail "lv123456789" "{title}-{lvid}.ts" false
      "wss://stream/xyz" "title1-lv123456789.ts" 0).2 rfl

/-- World whose destination path already exists and whose operator first
gives an invalid answer and then confirms the overwrite. -/
def wExists : World :=
  { wBase with pathExists := fun _ => true, answers := ["a", "y"] }

/-- C4: a run launches the sink onto an already-existing destination only
after the operator explicitly confirmed the overwrite at the prompt, and
every comment-capture start opens its sibling destination append-only
(spec-modelled append behaviour of the comment writer), so no existing
destination of the run is silently overwritten. -/
theorem C4_no_silent_overwrite (w : World) (lvid output : String) (sc : Bool)
    (u d : String) (r dst : String) (m : FileMode) :
    (Ev.sinkLaunch u d ∈ (_download w lvid output sc).snd →
      w.pathExists d = true → confirm_overwrite w.answers = some true) ∧
    (Ev.commentStart r dst m ∈ (_download w lvid output sc).snd →
      m = FileMode.append) := by
  constructor
  · intro hmem hex
    obtain ⟨p, hp, _, _⟩ :=
      mem_download_confirm w lvid output sc (Ev.sinkLaunch u d) rfl hmem
    obtain ⟨hmemc, _, _, hconf⟩ := confirm_phase_sinkLaunch w p sc u d hp
    obtain ⟨hmems, _, _⟩ := comment_phase_sinkLaunch w p sc u d hmemc
    obtain ⟨_, hdp, _⟩ := stream_phase_sinkLaunch w p u d hmems
    subst hdp
    exact hconf hex
  · intro hmem
    obtain ⟨p, hp, _, _⟩ :=
      mem_download_confirm w lvid output sc (Ev.commentStart r dst m) rfl hmem
    obtain ⟨_, hm, _⟩ := confirm_phase_commentStart w p sc r dst m hp
    exact hm

/-- Witness for C4 at a run onto an existing destination confirmed with
answers a then y, with comment capture on. -/
theorem C4_no_silent_overwrite_witness :
    Ev.sinkLaunch "wss://stream/xyz" "title1-lv123456789.ts" ∈
      (_download wExists "lv123456789" "{title}-{lvid}.ts" true).snd ∧
    wExists.pathExists "title1-lv123456789.ts" = true ∧
    confirm_overwrite wExists.answers = some true ∧
    Ev.commentStart "room0" "title1-lv123456789.ts.jsonl" .append ∈
      (_download wExists "lv123456789" "{title}-{lvid}.ts" true).snd ∧
    FileMode.append = FileMode.append := by
  have h := C4_no_silent_overwrite wExists "lv123456789" "{title}-{lvid}.ts" true
    "wss://stream/xyz" "title1-lv123456789.ts" "room0"
    "title1-lv123456789.ts.jsonl" .append
  exact ⟨by decide, rfl, h.1 (by decide) rfl, by decide, h.2 (by decide)⟩
